import Mathlib

/-!
Verification of the ungulate-browsing data-preparation pipeline and the
browsing-forecast inference pipeline.

The development shallowly embeds the transformation steps of the two
notebooks (`Data_preparation` and `Browsing_forecast`):

* raw sampling-path matrices and `aggregate_data` (height-level aggregation
  with the browsed-exceeds-offered correction and its log);
* `combine_forest` and the per-forest batch-reading loop with its
  per-file try/except isolation;
* the per-forest species-distribution table (`distributions`);
* the cross-forest merge into one zero-initialized dataset;
* the freshly-browsed normalization, the Hungarian-to-Latin renaming;
* the inference pipeline: frequency/RPS table, five-point sections,
  min-max TS normalization, prediction adjustment and the weighted
  forest-level aggregation.

Cell values are rationals (the spreadsheets hold counts; all arithmetic
performed by the code is exact on rationals).  Python code that can raise
(IndexError, KeyError, ZeroDivisionError) is embedded as `Option`-valued.

Column headers: the code stores a header as the string
`"<species> <field>"` where the field suffix is one of the fixed two-word
strings "all shoots", "freshly browsed", "old browsed", "forest coverage",
"supply percentage", and recovers the species and the field by splitting
off the final two words.  The five suffixes are pairwise distinct (already
in their final word), so two header strings are equal exactly when both
their species parts and their field parts are equal.  We therefore model a
header as the pair of the species name and the field.
-/

namespace Browsing

/-- The five per-species fields of the prepared dataset, in their column
order within one species block. -/
inductive Field where
  | allShoots
  | freshlyBrowsed
  | oldBrowsed
  | forestCoverage
  | supplyPercentage
deriving DecidableEq

/-- A column header: species name together with the field suffix. -/
abbrev Header := String × Field

/-- Column offset of each field inside a five-column species block of the
combined dataset. -/
def fieldOffset : Field → ℕ
  | Field.allShoots => 0
  | Field.freshlyBrowsed => 1
  | Field.oldBrowsed => 2
  | Field.forestCoverage => 3
  | Field.supplyPercentage => 4

/-- Reading the numeric cell `r[j]` of a matrix row.  The source loops
index only within the allocated width; out-of-range defaults to 0 (the
value the numpy arrays are initialized with). -/
def cell (r : List ℚ) (j : ℕ) : ℚ := r.getD j 0

/-- First-occurrence deduplication.  This is what
`np.unique(xs, return_index=True)` followed by re-sorting the unique
values by their first-occurrence indices computes. -/
def dedupFirst {α : Type} [DecidableEq α] (l : List α) : List α :=
  l.foldl (fun acc a => if a ∈ acc then acc else acc ++ [a]) []

/-- `seqOption g l` models a Python `for` loop applying a fallible body
`g` to each element of `l` in order: the first raised exception aborts the
whole loop (`none`); otherwise the loop yields the list of results. -/
def seqOption {α β : Type} (g : α → Option β) : List α → Option (List β)
  | [] => some []
  | a :: l =>
    match g a with
    | none => none
    | some b => (seqOption g l).map (fun bs => b :: bs)

/-- One sampling-path matrix as produced by the raw sheet reader
(`read_forest_data`): each species occupies nine consecutive columns
(4 offered-shoot sub-counts, 4 freshly-browsed sub-counts, 1 old-browsed
count).  Row 0 of the numpy array holds each species name broadcast across
its nine columns; `aggregate_data` recovers the per-block name list from
that row by first-occurrence deduplication, which yields exactly the
`species` list below (block names are pairwise distinct in the data).
`rows` are the numeric data rows (rows 2 and later of the numpy array),
one per sampling point. -/
structure RawPath where
  species : List String
  rows : List (List ℚ)
deriving DecidableEq

/-- `np.sum(data[i+2, 9j:9j+4])`: offered-shoot total of species block `j`
in one raw data row, before any correction. -/
def rawAll (r : List ℚ) (j : ℕ) : ℚ :=
  cell r (9*j) + cell r (9*j+1) + cell r (9*j+2) + cell r (9*j+3)

/-- `np.sum(data[i+2, 9j+4:9j+8])`: freshly-browsed total of species block
`j` in one raw data row. -/
def rawFresh (r : List ℚ) (j : ℕ) : ℚ :=
  cell r (9*j+4) + cell r (9*j+5) + cell r (9*j+6) + cell r (9*j+7)

/-- `data[i+2, 9j+8]`: the old-browsed count of species block `j`, passed
through unchanged. -/
def rawOld (r : List ℚ) (j : ℕ) : ℚ := cell r (9*j+8)

/-- The corrected offered-shoot count: if more freshly browsed than
offered was recorded, the offered count is corrected to offered plus
browsed, otherwise it is kept. -/
def aggAll (r : List ℚ) (j : ℕ) : ℚ :=
  if rawFresh r j > rawAll r j then rawAll r j + rawFresh r j else rawAll r j

/-- One aggregated data row: three columns per species block, in block
order (`aggregated[i, 3j] = all, 3j+1 = fresh, 3j+2 = old`). -/
def aggRow (S : ℕ) (r : List ℚ) : List ℚ :=
  (List.range S).flatMap (fun j => [aggAll r j, rawFresh r j, rawOld r j])

/-- A matrix of one sampling path after aggregation, or of one forest
after combining paths: a header row of species-qualified column names and
the numeric data rows. -/
structure AggMatrix where
  header : List Header
  rows : List (List ℚ)
deriving DecidableEq

/-- The synthesized header row of an aggregated matrix:
`"<sp> all shoots", "<sp> freshly browsed", "<sp> old browsed"` per
species. -/
def aggHeader (species : List String) : List Header :=
  species.flatMap (fun sp =>
    [(sp, Field.allShoots), (sp, Field.freshlyBrowsed), (sp, Field.oldBrowsed)])

/-- `aggregate_data`: collapses the nine raw sub-columns of every species
block into three semantic columns, applying the correction rule of
`aggAll` cell-wise. -/
def aggregate_data (p : RawPath) : AggMatrix :=
  { header := aggHeader p.species
    rows := p.rows.map (aggRow p.species.length) }

/-- One line of the correction log.  The source formats it as the
tab-separated string `"<species>\t ROW <i>\t ALL: <all>\t FRESH: <fresh>"`;
we keep the four recorded components. -/
structure LogEntry where
  species : String
  row : ℕ
  allShoots : ℚ
  fresh : ℚ
deriving DecidableEq

/-- The log entries `aggregate_data` appends while processing one path, in
the order the source appends them (row-major).  The row number logged by
the source is the aggregated row index `i`, which is one more than the
position of the data row in `rows` (row 0 of the aggregated array is the
header row). -/
def aggregate_log (p : RawPath) : List LogEntry :=
  (List.range p.rows.length).flatMap (fun idx =>
    (List.range p.species.length).filterMap (fun j =>
      if rawFresh (p.rows.getD idx []) j > rawAll (p.rows.getD idx []) j then
        some { species := p.species.getD j ""
               row := idx + 1
               allShoots := rawAll (p.rows.getD idx []) j
               fresh := rawFresh (p.rows.getD idx []) j }
      else none))

/-- `combine_forest`: the combined matrix is the first path followed by
the data rows (`array[1:, :]`, dropping the header row) of every further
path, in input order.  On an empty path list the source raises an
IndexError at `paths[0]`, modeled as `none`. -/
def combine_forest : List AggMatrix → Option AggMatrix
  | [] => none
  | p :: ps => some { header := p.header, rows := p.rows ++ ps.flatMap (fun q => q.rows) }

/-- One forest folder of the reading cell: each spreadsheet file is read
and aggregated inside `try`; a file whose reading or aggregation raises is
modeled as `none` and is skipped (the `except` branch warns and
continues).  The successfully aggregated paths are then combined. -/
def processForest (files : List (Option RawPath)) : Option AggMatrix :=
  combine_forest ((files.reduceOption).map aggregate_data)

/-- The whole reading cell over a corpus of forest folders.  The
`combine_forest` call sits outside the per-file try/except, so an
exception it raises propagates and aborts the batch, which `seqOption`
models. -/
def processBatch (batch : List (List (Option RawPath))) : Option (List AggMatrix) :=
  seqOption processForest batch

/-- A per-forest matrix with three columns per species (input of the
distribution cell): header row plus numeric data rows. -/
structure ForestMatrix where
  header : List Header
  rows : List (List ℚ)
deriving DecidableEq

/-- The species list the distribution cell parses out of the header row:
every column name is stripped of its two-word field suffix and the results
are deduplicated keeping first-occurrence order. -/
def forestSpecies (m : ForestMatrix) : List String :=
  dedupFirst (m.header.map Prod.fst)

/-- The coverage counter of species `j`: the number of data rows whose
offered-shoot cell (column `3j`) is nonzero. -/
def coverCount (m : ForestMatrix) (j : ℕ) : ℕ :=
  (m.rows.filter (fun r => decide (cell r (3*j) ≠ 0))).length

/-- The supply accumulator of species `j`: the source adds the
offered-shoot cell of every data row whose value is nonzero (adding the
zero cells would not change the total). -/
def supplyAcc (m : ForestMatrix) (j : ℕ) : ℚ :=
  (m.rows.map (fun r => if cell r (3*j) ≠ 0 then cell r (3*j) else 0)).sum

/-- The forest-wide offered-shoot total accumulated across all species
during the same pass. -/
def totalShoots (m : ForestMatrix) : ℚ :=
  ((List.range (forestSpecies m).length).map (fun j => supplyAcc m j)).sum

/-- The distribution table of one forest: per species its name, its
coverage (counter divided by the number of sampling points) and its supply
share (accumulator divided by the forest total).  Both divisions are
performed unconditionally by the source; a zero divisor raises a
ZeroDivisionError (the table holds Python floats, divided elementwise), so
a forest with no data rows or with a zero offered-shoot total is modeled
as `none` — there is no fallback branch in the code. -/
def distributions (m : ForestMatrix) : Option (List (String × ℚ × ℚ)) :=
  if m.rows.length = 0 then none
  else if totalShoots m = 0 then none
  else some ((List.range (forestSpecies m).length).map (fun j =>
    ((forestSpecies m).getD j "",
     (coverCount m j : ℚ) / (m.rows.length : ℚ),
     supplyAcc m j / totalShoots m)))

/-- One forest after the distribution columns have been inserted: five
columns per species.  The stored `species` list is the per-block species
list that the merge cell re-parses from the header row (column `5i` minus
its field suffix). -/
structure EnrichedForest where
  species : List String
  rows : List (List ℚ)
deriving DecidableEq

/-- The five headers of one species block of an enriched matrix, in
column order. -/
def blockHeaders (sp : String) : List Header :=
  [(sp, Field.allShoots), (sp, Field.freshlyBrowsed), (sp, Field.oldBrowsed),
   (sp, Field.forestCoverage), (sp, Field.supplyPercentage)]

/-- The header row of an enriched forest matrix. -/
def forestHeaders (f : EnrichedForest) : List Header :=
  f.species.flatMap blockHeaders

/-- The canonical species list: all forests are visited in iteration
order, each contributing its local species in column order, and the
concatenation is deduplicated by first occurrence. -/
def canonSpecies (forests : List EnrichedForest) : List String :=
  dedupFirst (forests.flatMap (fun f => f.species))

/-- The header row of the combined dataset, built from the canonical
species list. -/
def canonHeaders (forests : List EnrichedForest) : List Header :=
  (canonSpecies forests).flatMap blockHeaders

/-- `np.where(dataset[0] == header)[0][0]`: index of the first occurrence
of a header in the dataset header row, `none` when absent (numpy raises an
IndexError in that case). -/
def firstIdx {α : Type} [DecidableEq α] : List α → α → Option ℕ
  | [], _ => none
  | b :: l, a => if b = a then some 0 else (firstIdx l a).map (fun n => n + 1)

/-- The inner copying loop of the merge cell for one data row: starting
from the zero-initialized target row, every local column value is written
at the target column found by header lookup; a failed lookup aborts. -/
def writeCols (canon localH : List Header) (vals : List ℚ) :
    List ℕ → List ℚ → Option (List ℚ)
  | [], acc => some acc
  | jj :: js, acc =>
    match firstIdx canon (localH.getD jj ("", Field.allShoots)) with
    | none => none
    | some pos => writeCols canon localH vals js (acc.set pos (cell vals jj))

/-- One merged dataset row built from one local data row of one forest. -/
def buildRow (canon localH : List Header) (vals : List ℚ) : Option (List ℚ) :=
  writeCols canon localH vals (List.range localH.length)
    (List.replicate canon.length 0)

/-- The combined dataset: a header row over the canonical species list and
one row per sampling point of every forest, in forest iteration order then
within-forest row order. -/
structure Dataset where
  header : List Header
  rows : List (List ℚ)
deriving DecidableEq

/-- The whole merge cell: the dataset is allocated zero-initialized and
every forest row is copied in by header lookup. -/
def dataset (forests : List EnrichedForest) : Option Dataset :=
  (seqOption (fun f =>
      seqOption (buildRow (canonHeaders forests) (forestHeaders f)) f.rows)
    forests).map (fun per =>
      { header := canonHeaders forests, rows := per.flatten })

/-- Field of dataset column `j`, as the normalization cell reads it off
the header row (`'freshly browsed' in dataset[0, j]`). -/
def fieldOf (hs : List Header) (j : ℕ) : Field :=
  (hs.getD j ("", Field.allShoots)).2

/-- The freshly-browsed normalization of one data row: every
freshly-browsed cell is divided by the cell immediately to its left (the
paired offered-shoot count) when that cell is nonzero; when it is zero the
freshly-browsed cell is forced to 0 (the source leaves an already-zero
cell unchanged and overwrites a nonzero one with 0, which has the same
result).  In every dataset the pipeline builds, freshly-browsed columns
sit at offset 1 of a species block, so `j` is positive and the truncated
`j - 1` below agrees with the source's `j - 1`. -/
def normalizeRow (hs : List Header) (r : List ℚ) : List ℚ :=
  (List.range r.length).map (fun j =>
    if fieldOf hs j = Field.freshlyBrowsed then
      (if cell r (j-1) ≠ 0 then cell r j / cell r (j-1) else 0)
    else cell r j)

/-- The normalization cell applied to the whole dataset (every data
row). -/
def normalizeDataset (d : Dataset) : Dataset :=
  { header := d.header, rows := d.rows.map (normalizeRow d.header) }

/-- The fixed Hungarian-to-Latin species name table (`names_dict`),
verbatim from the source, including the trailing spaces some Latin names
carry there. -/
def names_dict : List (String × String) :=
  [("Kocsánytalan tölgy", "Quercus petraea"),
   ("Kocsányos tölgy", "Quercus robur"),
   ("Csertölgy", "Quercus cerris"),
   ("Magas kőris", "Fraxinus excelsior"),
   ("Virágos kőris", "Fraxinus ornus"),
   ("Gyertyán", "Carpinus betulus"),
   ("Bükk", "Fagus sylvatica"),
   ("Hegyi juhar", "Acer pseudoplatanus"),
   ("Korai juhar", "Acer platanoides"),
   ("Mezei juhar", "Acer campestre"),
   ("Erdei fenyő", "Pinus sylvestris"),
   ("Akác", "Robinia pseudoacacia"),
   ("Fagyal", "Ligustrum vulgare "),
   ("Galagonya", "Crataegus monogyna"),
   ("Húsos som", "Cornus mas"),
   ("Veresgyűrűs som", "Cornus sanguinea"),
   ("Kökény", "Prunus spinosa"),
   ("Szeder", "Rubus fruticosus "),
   ("Vadrózsa", "Rosa canina "),
   ("Bodza", "Sambucus nigra"),
   ("Tatárjuhar", "Acer tataricum"),
   ("Madárcseresznye", "Prunus avium "),
   ("Mogyoró", "Corylus avellana"),
   ("Mezei szil", "Ulmus minor "),
   ("Berkenye", "Sorbus aucuparia"),
   ("Vadkörte", "Pyrus pyraster "),
   ("Bibircses kecskerágó", "Euonymus verrucosus"),
   ("Molyhos tölgy", "Quercus pubescens")]

/-- Dictionary lookup `names_dict[species]`, `none` on a missing key
(Python raises a KeyError). -/
def lookupName (s : String) : Option String :=
  (names_dict.find? (fun kv => kv.1 == s)).map (fun kv => kv.2)

/-- The renaming of one header: a header whose species part is "Unknown"
is passed through unchanged; otherwise the species part is replaced by its
table entry, keeping the field suffix, and a missing entry raises. -/
def renameHeader (h : Header) : Option Header :=
  if h.1 = "Unknown" then some h
  else (lookupName h.1).map (fun latin => (latin, h.2))

/-- The renaming cell over the whole header row: the first missing entry
raises a KeyError, halting the run. -/
def renameDataset (hs : List Header) : Option (List Header) :=
  seqOption renameHeader hs

/-! ### The inference pipeline (`Browsing_forecast`) -/

/-- The additive smoothing constant of `normalize_TS`. -/
def smoothing : ℚ := 1/100000

/-- The sentinel predicted where a species had no supply
(`noSupply_value = -0.00001`). -/
def noSupplyValue : ℚ := -1/100000

/-- The frequency counter of species `j` in the inference pipeline.  The
source loop runs `for i in range(1, len(ts_values))`, so the first data
row of the loaded matrix (`ts_values` contains only data rows — the
header row was consumed as column names) is skipped. -/
def inferenceFreqCount (ts : List (List ℚ)) (j : ℕ) : ℕ :=
  ((ts.drop 1).filter (fun r => decide (cell r j ≠ 0))).length

/-- The supply accumulator of species `j` in the inference pipeline, over
the same skipped-first-row loop. -/
def inferenceAcc (ts : List (List ℚ)) (j : ℕ) : ℚ :=
  ((ts.drop 1).map (fun r => if cell r j ≠ 0 then cell r j else 0)).sum

/-- The forest-wide total accumulated by the same loop (`all_shoots`). -/
def inferenceTotal (ts : List (List ℚ)) (S : ℕ) : ℚ :=
  ((List.range S).map (fun j => inferenceAcc ts j)).sum

/-- The frequency/RPS table of the inference pipeline: per species its
frequency (counter divided by `len(ts_values)`) and its relative
proportion of supply (accumulator divided by the total).  As in the
training pipeline, a zero divisor raises, modeled `none`. -/
def inferenceProps (ts : List (List ℚ)) (S : ℕ) : Option (List (ℚ × ℚ)) :=
  if ts.length = 0 then none
  else if inferenceTotal ts S = 0 then none
  else some ((List.range S).map (fun j =>
    ((inferenceFreqCount ts j : ℚ) / (ts.length : ℚ),
     inferenceAcc ts j / inferenceTotal ts S)))

/-- Modelled from the spec (section 4.8 and the glossary): the coverage of
a species is the fraction of sampling points — all of them — where the
species had nonzero supply.  This is the reference value the claim
compares the code against. -/
def specCoverage (ts : List (List ℚ)) (j : ℕ) : ℚ :=
  ((ts.filter (fun r => decide (cell r j ≠ 0))).length : ℚ) / (ts.length : ℚ)

/-- One row of the unaggregated inference feature matrix: per species its
raw shoot count, the (constant) frequency and the (constant) RPS value. -/
def unaggRow (p : List (ℚ × ℚ)) (S : ℕ) (r : List ℚ) : List ℚ :=
  (List.range (3*S)).map (fun c =>
    if c % 3 = 0 then cell r (c / 3)
    else if c % 3 = 1 then (p.getD (c / 3) (0, 0)).1
    else (p.getD (c / 3) (0, 0)).2)

/-- Aggregation of the sampling points into sections of five consecutive
points: the shoot-count column of a section is the sum over its five
points, the frequency/RPS columns take the (constant) value of the first
point of the section. -/
def sectionRows (S : ℕ) (u : List (List ℚ)) : List (List ℚ) :=
  (List.range (u.length / 5)).map (fun i =>
    (List.range (3*S)).map (fun c =>
      if c % 3 = 0 then
        ((List.range 5).map (fun k => cell (u.getD (5*i+k) []) c)).sum
      else cell (u.getD (5*i) []) c))

/-- Column minimum over the section rows (`X[:, c].min(axis=0)`); the
section matrix is never empty when this is called. -/
def colMin (rows : List (List ℚ)) (c : ℕ) : ℚ :=
  match rows with
  | [] => 0
  | r :: rs => rs.foldl (fun m r' => min m (cell r' c)) (cell r c)

/-- Column maximum over the section rows (`X[:, c].max(axis=0)`). -/
def colMax (rows : List (List ℚ)) (c : ℕ) : ℚ :=
  match rows with
  | [] => 0
  | r :: rs => rs.foldl (fun m r' => max m (cell r' c)) (cell r c)

/-- `normalize_TS`: every column of index divisible by 3 (the TS columns)
is min-max normalized with the smoothing constant added to the
denominator; the other columns are untouched. -/
def normalize_TS (rows : List (List ℚ)) : List (List ℚ) :=
  rows.map (fun r => (List.range r.length).map (fun c =>
    if c % 3 = 0 then
      (cell r c - colMin rows c) / (colMax rows c - colMin rows c + smoothing)
    else cell r c))

/-- The section-level feature matrix the models are fed: unaggregate, cut
into sections, then TS-normalize. -/
def sectionData (ts : List (List ℚ)) (S : ℕ) : Option (List (List ℚ)) :=
  (inferenceProps ts S).map (fun p =>
    normalize_TS (sectionRows S (ts.map (unaggRow p S))))

/-- The raw model outputs: entry `(i, j)` is the prediction of the
regressor of species `j` on the full feature row of section `i`.  The
pre-trained regressors are opaque artifacts; `predict` stands for them. -/
def rawEstimates (S : ℕ) (predict : ℕ → List ℚ → ℚ) (data : List (List ℚ)) :
    List (List ℚ) :=
  data.map (fun row => (List.range S).map (fun j => predict j row))

/-- `adjust_predictions`: entry `(i, j)` becomes the no-supply sentinel
when `X[i, 3j] == 0` — note that `X` is the matrix the caller passes,
which in the pipeline is the TS-normalized section matrix — and negative
predictions with nonzero `X[i, 3j]` are clamped to 0. -/
def adjust_predictions (yPred X : List (List ℚ)) : List (List ℚ) :=
  (List.range yPred.length).map (fun i =>
    (List.range (yPred.getD i []).length).map (fun j =>
      if cell (X.getD i []) (3*j) = 0 then noSupplyValue
      else if cell (yPred.getD i []) j < 0 then 0
      else cell (yPred.getD i []) j))

/-- The raw section-level estimate matrix of the pipeline. -/
def sectionEstimatesRaw (ts : List (List ℚ)) (S : ℕ)
    (predict : ℕ → List ℚ → ℚ) : Option (List (List ℚ)) :=
  (sectionData ts S).map (fun data => rawEstimates S predict data)

/-- The adjusted section-level estimate matrix of the pipeline
(`adjust_predictions(section_estimates, data, noSupply_value)`). -/
def sectionEstimatesAdj (ts : List (List ℚ)) (S : ℕ)
    (predict : ℕ → List ℚ → ℚ) : Option (List (List ℚ)) :=
  (sectionData ts S).map (fun data =>
    adjust_predictions (rawEstimates S predict data) data)

/-- `forest_estimates`: per species, the section estimates are combined
with weights `data[section, 3sp] / sum(data[:, 3sp])` — computed on the
TS-normalized section matrix `data` — and a species whose normalized
column sums to zero gets the no-supply sentinel. -/
def forest_estimates (ts : List (List ℚ)) (S : ℕ)
    (predict : ℕ → List ℚ → ℚ) : Option (List ℚ) :=
  (sectionData ts S).map (fun data =>
    (List.range S).map (fun sp =>
      if (data.map (fun r => cell r (3*sp))).sum ≠ 0 then
        ((List.range data.length).map (fun i =>
          cell (data.getD i []) (3*sp) / (data.map (fun r => cell r (3*sp))).sum
            * cell ((adjust_predictions (rawEstimates S predict data) data).getD i []) sp)).sum
      else noSupplyValue))

/-- The offered-shoot total of section `i` for species `j`, summed from
the raw input rows: the pre-normalization shoot count the claims refer
to. -/
def rawSectionTS (ts : List (List ℚ)) (i j : ℕ) : ℚ :=
  ((List.range 5).map (fun k => cell (ts.getD (5*i+k) []) j)).sum

/-- Modelled from the spec (section 4.8, aggregation bullet): the weight
of a section is its raw offered-shoot count for the species divided by the
forest total raw offered-shoot count, and the forecast is the
weight-weighted sum of the adjusted section predictions. -/
def specWeightedForecast (ts : List (List ℚ)) (adj : List (List ℚ))
    (nSec sp : ℕ) : ℚ :=
  ((List.range nSec).map (fun i =>
    rawSectionTS ts i sp / ((List.range nSec).map (fun i' => rawSectionTS ts i' sp)).sum
      * cell (adj.getD i []) sp)).sum

/-! ### Concrete inputs used by witnesses and counterexamples -/

/-- A one-species, one-point path whose raw row triggers the correction
rule (2 offered, 3 freshly browsed, 1 old browsed). -/
def rawW1 : RawPath := { species := ["SpA"], rows := [[2,0,0,0, 3,0,0,0, 1]] }

/-- The same concrete raw path, used by the functional claim about the
aggregator. -/
def rawW2 : RawPath := { species := ["SpA"], rows := [[2,0,0,0, 3,0,0,0, 1]] }

/-- A small well-formed raw path that reads successfully. -/
def rawW7 : RawPath := { species := ["SpA"], rows := [[1,0,0,0, 0,0,0,0, 0]] }

/-- A one-species forest whose only sampling point offers zero shoots:
its forest-wide offered-shoot total is zero. -/
def zeroForest : ForestMatrix :=
  { header := [("A", Field.allShoots), ("A", Field.freshlyBrowsed), ("A", Field.oldBrowsed)]
    rows := [[0, 0, 0]] }

/-- Two enriched one-species, one-row forests with disjoint species. -/
def forestW1 : EnrichedForest := { species := ["A"], rows := [[1,2,3,4,5]] }

/-- Second forest of the merge witness. -/
def forestW2 : EnrichedForest := { species := ["B"], rows := [[6,7,8,9,10]] }

/-- A two-column dataset fragment for the normalization witness: offered 4,
freshly browsed 3. -/
def datasetW5 : Dataset :=
  { header := [("A", Field.allShoots), ("A", Field.freshlyBrowsed)]
    rows := [[4, 3]] }

/-- A header row containing a species name absent from `names_dict`. -/
def headersW6 : List Header :=
  [("Bükk", Field.allShoots), ("Nevesincs fa", Field.freshlyBrowsed)]

/-- An inference input with two sampling points, one species: the first
data row has nonzero supply, which the skipped-first-row loop misses. -/
def tsW8 : List (List ℚ) := [[5], [7]]

/-- An inference input with ten sampling points (two sections) and one
species: section shoot totals 3 and 5, both nonzero, with the species
minimum over sections positive. -/
def tsW9 : List (List ℚ) :=
  [[3], [0], [0], [0], [0], [5], [0], [0], [0], [0]]

/-- A concrete stand-in for the opaque per-species regressors: the
prediction depends only on the first feature of the section row. -/
def predictW9 : ℕ → List ℚ → ℚ :=
  fun _ row => if cell row 0 = 0 then 1/2 else 1/4

/-- The adjusted estimate matrix the pipeline produces on `tsW9` and
`predictW9` (computed by the claims below). -/
def adjW9 : List (List ℚ) := [[-1/100000], [1/4]]

/-! ### Helper lemmas -/

lemma cell_nonneg {r : List ℚ} (h : ∀ x ∈ r, 0 ≤ x) (n : ℕ) : 0 ≤ cell r n := by
  rcases Nat.lt_or_ge n r.length with hn | hn
  · exact h _ (by rw [cell, List.getD_eq_getElem _ _ hn]; exact List.getElem_mem hn)
  · rw [cell, List.getD_eq_default _ _ hn]

lemma getD_mem {α : Type} {l : List α} {j : ℕ} (hj : j < l.length) (d : α) :
    l.getD j d ∈ l := by
  rw [List.getD_eq_getElem _ _ hj]
  exact List.getElem_mem hj

/-- Indexing into a flat concatenation of fixed-width blocks: entry
`L * j + k` of `l.flatMap F` is entry `k` of the block of the j-th element
of `l`. -/
lemma getElem?_flatMap_fixed {α β : Type} (F : α → List β) (L : ℕ)
    (hF : ∀ a, (F a).length = L) (l : List α) {j : ℕ} (k : ℕ) (hk : k < L)
    {a : α} (hja : l[j]? = some a) :
    (l.flatMap F)[L * j + k]? = (F a)[k]? := by
  induction l generalizing j with
  | nil => simp at hja
  | cons b l ih =>
    rw [List.flatMap_cons]
    cases j with
    | zero =>
      simp only [List.getElem?_cons_zero, Option.some.injEq] at hja
      subst hja
      rw [Nat.mul_zero, Nat.zero_add]
      exact List.getElem?_append_left (by rw [hF]; exact hk)
    | succ j =>
      have hja' : l[j]? = some a := by simpa using hja
      have hlen : (F b).length ≤ L * (j + 1) + k := by
        rw [hF]; nlinarith [Nat.zero_le (L * j)]
      rw [List.getElem?_append_right hlen, hF]
      have harith : L * (j + 1) + k - L = L * j + k := by
        rw [Nat.mul_succ]; omega
      rw [harith]
      exact ih hja'

lemma length_flatMap_const {α β : Type} (F : α → List β) (L : ℕ)
    (hF : ∀ a, (F a).length = L) (l : List α) :
    (l.flatMap F).length = L * l.length := by
  induction l with
  | nil => simp
  | cons b l ih =>
    rw [List.flatMap_cons, List.length_append, hF, ih, List.length_cons,
      Nat.mul_succ]
    omega

lemma cell_aggRow (S : ℕ) (r : List ℚ) {j : ℕ} (k : ℕ) (hj : j < S) (hk : k < 3) :
    cell (aggRow S r) (3 * j + k) =
      cell [aggAll r j, rawFresh r j, rawOld r j] k := by
  rw [cell, cell, List.getD_eq_getElem?_getD, List.getD_eq_getElem?_getD, aggRow,
    getElem?_flatMap_fixed (fun j => [aggAll r j, rawFresh r j, rawOld r j]) 3
      (fun _ => rfl) _ k hk (List.getElem?_range hj)]

lemma mem_foldl_dedup {α : Type} [DecidableEq α] (l : List α) :
    ∀ (acc : List α) (x : α),
      x ∈ l.foldl (fun acc a => if a ∈ acc then acc else acc ++ [a]) acc ↔
        x ∈ acc ∨ x ∈ l := by
  induction l with
  | nil => simp
  | cons b l ih =>
    intro acc x
    rw [List.foldl_cons, ih]
    by_cases hb : b ∈ acc
    · rw [if_pos hb]
      constructor
      · rintro (h | h)
        · exact Or.inl h
        · exact Or.inr (List.mem_cons_of_mem _ h)
      · rintro (h | h)
        · exact Or.inl h
        · rcases List.mem_cons.mp h with rfl | h
          · exact Or.inl hb
          · exact Or.inr h
    · rw [if_neg hb]
      constructor
      · rintro (h | h)
        · rcases List.mem_append.mp h with h | h
          · exact Or.inl h
          · exact Or.inr (List.mem_cons.mpr (Or.inl (List.mem_singleton.mp h)))
        · exact Or.inr (List.mem_cons_of_mem _ h)
      · rintro (h | h)
        · exact Or.inl (List.mem_append.mpr (Or.inl h))
        · rcases List.mem_cons.mp h with rfl | h
          · exact Or.inl (List.mem_append.mpr (Or.inr (List.mem_singleton.mpr rfl)))
          · exact Or.inr h

lemma mem_dedupFirst {α : Type} [DecidableEq α] {l : List α} {x : α} :
    x ∈ dedupFirst l ↔ x ∈ l := by
  rw [dedupFirst, mem_foldl_dedup]
  simp

lemma firstIdx_isSome {α : Type} [DecidableEq α] {l : List α} {a : α}
    (h : a ∈ l) : ∃ p, firstIdx l a = some p := by
  induction l with
  | nil => simp at h
  | cons b l ih =>
    rw [firstIdx]
    by_cases hb : b = a
    · exact ⟨0, if_pos hb⟩
    · have h' : a ∈ l := by
        rcases List.mem_cons.mp h with rfl | h''
        · exact absurd rfl hb
        · exact h''
      rcases ih h' with ⟨p, hp⟩
      refine ⟨p + 1, ?_⟩
      rw [if_neg hb, hp]
      rfl

lemma firstIdx_getElem? {α : Type} [DecidableEq α] {l : List α} {a : α} {p : ℕ}
    (h : firstIdx l a = some p) : l[p]? = some a := by
  induction l generalizing p with
  | nil => simp [firstIdx] at h
  | cons b l ih =>
    rw [firstIdx] at h
    by_cases hb : b = a
    · rw [if_pos hb] at h
      cases h
      simpa using hb
    · rw [if_neg hb] at h
      rcases Option.map_eq_some'.mp h with ⟨q, hq, rfl⟩
      simpa using ih hq

lemma seqOption_eq_none {α β : Type} (g : α → Option β) {l : List α} {x : α}
    (hx : x ∈ l) (hgx : g x = none) : seqOption g l = none := by
  induction l with
  | nil => simp at hx
  | cons a l ih =>
    rw [seqOption]
    rcases List.mem_cons.mp hx with rfl | hx
    · rw [hgx]
    · cases hga : g a
      · rfl
      · rw [ih hx]; rfl

lemma seqOption_eq_map {α β : Type} (g : α → Option β) (d : β) {l : List α}
    (h : ∀ x ∈ l, g x ≠ none) :
    seqOption g l = some (l.map (fun x => (g x).getD d)) := by
  induction l with
  | nil => rfl
  | cons a l ih =>
    rw [seqOption]
    cases hga : g a with
    | none => exact absurd hga (h a (List.mem_cons_self a l))
    | some b =>
      rw [ih (fun x hx => h x (List.mem_cons_of_mem a hx))]
      simp [hga]

lemma seqOption_congr {α β : Type} {g₁ g₂ : α → Option β} {l : List α}
    (h : ∀ x ∈ l, g₁ x = g₂ x) : seqOption g₁ l = seqOption g₂ l := by
  induction l with
  | nil => rfl
  | cons a l ih =>
    rw [seqOption, seqOption, h a (List.mem_cons_self a l),
      ih (fun x hx => h x (List.mem_cons_of_mem a hx))]

lemma seqOption_map_list {α γ β : Type} (g : γ → Option β) (φ : α → γ)
    (l : List α) : seqOption g (l.map φ) = seqOption (fun x => g (φ x)) l := by
  induction l with
  | nil => rfl
  | cons a l ih => rw [List.map_cons, seqOption, seqOption, ih]

lemma reduceOption_map_some {α : Type} (l : List α) :
    (l.map some).reduceOption = l := by
  induction l with
  | nil => rfl
  | cons a l ih => simp [ih]

lemma getD_rangeMap {β : Type} (g : ℕ → β) {n j : ℕ} (hj : j < n) (d : β) :
    ((List.range n).map g).getD j d = g j := by
  rw [List.getD_eq_getElem?_getD, List.getElem?_map, List.getElem?_range hj]
  rfl

lemma writeCols_spec (canon localH : List Header) (vals : List ℚ)
    (hmem : ∀ h ∈ localH, h ∈ canon) (js : List ℕ)
    (hjs : ∀ jj ∈ js, jj < localH.length) :
    ∀ acc : List ℚ, acc.length = canon.length →
      ∃ out, writeCols canon localH vals js acc = some out ∧
        out.length = canon.length ∧
        ∀ (p : ℕ) (hp : Header), canon[p]? = some hp → hp ∉ localH →
          out[p]? = acc[p]? := by
  induction js with
  | nil => exact fun acc hacc => ⟨acc, rfl, hacc, fun _ _ _ _ => rfl⟩
  | cons jj js ih =>
    intro acc hacc
    have hjj : jj < localH.length := hjs jj (List.mem_cons_self jj js)
    have hh : localH.getD jj ("", Field.allShoots) ∈ canon :=
      hmem _ (getD_mem hjj _)
    rcases firstIdx_isSome hh with ⟨pos, hpos⟩
    rw [writeCols, hpos]
    rcases ih (fun x hx => hjs x (List.mem_cons_of_mem jj hx))
        (acc.set pos (cell vals jj)) (by rw [List.length_set]; exact hacc)
      with ⟨out, hout, hlen, huntouched⟩
    refine ⟨out, hout, hlen, fun p hp hcanon hnot => ?_⟩
    rw [huntouched p hp hcanon hnot]
    have hne : pos ≠ p := by
      intro heq
      subst heq
      rw [firstIdx_getElem? hpos] at hcanon
      cases hcanon
      exact hnot (getD_mem hjj _)
    exact List.getElem?_set_ne hne

lemma mem_blockHeaders_fst {sp : String} {h : Header}
    (hh : h ∈ blockHeaders sp) : h.1 = sp := by
  simp only [blockHeaders, List.mem_cons, List.not_mem_nil, or_false] at hh
  rcases hh with rfl | rfl | rfl | rfl | rfl <;> rfl

lemma getElem?_blockHeaders (sp : String) (fld : Field) :
    (blockHeaders sp)[fieldOffset fld]? = some (sp, fld) := by
  cases fld <;> rfl

lemma mem_canonHeaders {forests : List EnrichedForest} {f : EnrichedForest}
    (hf : f ∈ forests) {h : Header} (hh : h ∈ forestHeaders f) :
    h ∈ canonHeaders forests := by
  rcases List.mem_flatMap.mp hh with ⟨sp, hsp, hblk⟩
  exact List.mem_flatMap.mpr ⟨sp,
    mem_dedupFirst.mpr (List.mem_flatMap.mpr ⟨f, hf, hsp⟩), hblk⟩

/-! ### Claim theorems -/

/-- C1: For every aggregated forest-path matrix produced by the per-path
aggregator from non-negative raw counts, and for every data row and every
species, the output satisfies all_shoots ≥ freshly_browsed: the
post-correction invariant holds at every sampling point for every
species. -/
theorem aggregate_invariant (p : RawPath)
    (hnn : ∀ r ∈ p.rows, ∀ x ∈ r, 0 ≤ x) :
    ∀ r' ∈ (aggregate_data p).rows, ∀ j < p.species.length,
      cell r' (3*j + 1) ≤ cell r' (3*j + 0) := by
  intro r' hr' j hj
  rcases List.mem_map.mp hr' with ⟨r, hr, rfl⟩
  rw [cell_aggRow _ _ 1 hj (by omega), cell_aggRow _ _ 0 hj (by omega)]
  show rawFresh r j ≤ aggAll r j
  have hc := fun n => cell_nonneg (hnn r hr) n
  have h0 : 0 ≤ rawAll r j :=
    add_nonneg (add_nonneg (add_nonneg (hc _) (hc _)) (hc _)) (hc _)
  rw [aggAll]
  by_cases hgt : rawFresh r j > rawAll r j
  · rw [if_pos hgt]
    linarith
  · rw [if_neg hgt]
    linarith [not_lt.mp hgt]

/-- Witness for C1 at the concrete corrected row of `rawW1`. -/
theorem aggregate_invariant_witness :
    cell (aggRow 1 [2,0,0,0, 3,0,0,0, 1]) (3*0 + 1) ≤
      cell (aggRow 1 [2,0,0,0, 3,0,0,0, 1]) (3*0 + 0) := by
  have hnn : ∀ r ∈ rawW1.rows, ∀ x ∈ r, 0 ≤ x := by
    intro r hr x hx
    simp only [rawW1, List.mem_cons, List.not_mem_nil, or_false] at hr
    subst hr
    simp only [List.mem_cons, List.not_mem_nil, or_false] at hx
    rcases hx with rfl | rfl | rfl | rfl | rfl | rfl | rfl | rfl | rfl <;> norm_num
  exact aggregate_invariant rawW1 hnn (aggRow 1 [2,0,0,0, 3,0,0,0, 1])
    (by simp [aggregate_data, rawW1]) 0 (by simp [rawW1])

/-- C2: For every raw sheet matrix and every data row and species block,
the aggregator outputs freshly_browsed as the sum of sub-columns 5 to 8
and old_browsed as the ninth sub-column unchanged, while all_shoots is the
sum of sub-columns 1 to 4, except that when that sum is strictly smaller
than freshly_browsed it becomes the sum plus freshly_browsed and a log
entry recording the species, the row index and both counts is emitted; in
particular, raw sub-columns [2,0,0,0, 3,0,0,0, 1] yield all_shoots 5,
freshly_browsed 3, old_browsed 1. -/
theorem aggregate_functional :
    (∀ (p : RawPath) (i j : ℕ), i < p.rows.length → j < p.species.length →
      cell ((aggregate_data p).rows.getD i []) (3*j + 1) =
          rawFresh (p.rows.getD i []) j
        ∧ cell ((aggregate_data p).rows.getD i []) (3*j + 2) =
            rawOld (p.rows.getD i []) j
        ∧ cell ((aggregate_data p).rows.getD i []) (3*j + 0) =
            (if rawAll (p.rows.getD i []) j < rawFresh (p.rows.getD i []) j
             then rawAll (p.rows.getD i []) j + rawFresh (p.rows.getD i []) j
             else rawAll (p.rows.getD i []) j)
        ∧ (rawAll (p.rows.getD i []) j < rawFresh (p.rows.getD i []) j →
            ({ species := p.species.getD j "", row := i + 1,
               allShoots := rawAll (p.rows.getD i []) j,
               fresh := rawFresh (p.rows.getD i []) j } : LogEntry)
              ∈ aggregate_log p))
    ∧ (aggregate_data rawW2).rows = [[5, 3, 1]] := by
  constructor
  · intro p i j hi hj
    have hrow : (aggregate_data p).rows.getD i [] =
        aggRow p.species.length (p.rows.getD i []) := by
      show (p.rows.map (aggRow p.species.length)).getD i [] = _
      rw [List.getD_eq_getElem?_getD, List.getElem?_map,
        List.getElem?_eq_getElem hi, Option.map_some', Option.getD_some,
        List.getD_eq_getElem _ _ hi]
    refine ⟨?_, ?_, ?_, ?_⟩
    · rw [hrow, cell_aggRow _ _ 1 hj (by omega)]
      rfl
    · rw [hrow, cell_aggRow _ _ 2 hj (by omega)]
      rfl
    · rw [hrow, cell_aggRow _ _ 0 hj (by omega)]
      rfl
    · intro hlt
      rw [aggregate_log]
      refine List.mem_flatMap.mpr ⟨i, List.mem_range.mpr hi,
        List.mem_filterMap.mpr ⟨j, List.mem_range.mpr hj, ?_⟩⟩
      rw [if_pos hlt]
  · have hA : rawAll ([2,0,0,0, 3,0,0,0, 1] : List ℚ) 0 = 2 := by
      show (2:ℚ) + 0 + 0 + 0 = 2
      norm_num
    have hF : rawFresh ([2,0,0,0, 3,0,0,0, 1] : List ℚ) 0 = 3 := by
      show (3:ℚ) + 0 + 0 + 0 = 3
      norm_num
    have hO : rawOld ([2,0,0,0, 3,0,0,0, 1] : List ℚ) 0 = 1 := rfl
    have hAll : aggAll ([2,0,0,0, 3,0,0,0, 1] : List ℚ) 0 = 5 := by
      rw [aggAll, hA, hF]
      norm_num
    show [aggRow 1 [2,0,0,0, 3,0,0,0, 1]] = [[5, 3, 1]]
    rw [show aggRow 1 [2,0,0,0, 3,0,0,0, 1] =
        [aggAll [2,0,0,0, 3,0,0,0, 1] 0, rawFresh [2,0,0,0, 3,0,0,0, 1] 0,
         rawOld [2,0,0,0, 3,0,0,0, 1] 0] from rfl, hAll, hF, hO]

/-- Witness for C2: the concrete corrected input also exercises the
quantified part, including the emitted log entry. -/
theorem aggregate_functional_witness :
    cell ((aggregate_data rawW2).rows.getD 0 []) (3*0 + 1) =
        rawFresh (rawW2.rows.getD 0 []) 0
      ∧ ({ species := "SpA", row := 1, allShoots := 2, fresh := 3 } : LogEntry)
          ∈ aggregate_log rawW2 := by
  have hmain := aggregate_functional.1 rawW2 0 0 (by simp [rawW2]) (by simp [rawW2])
  refine ⟨hmain.1, ?_⟩
  have hA : rawAll (rawW2.rows.getD 0 []) 0 = 2 := by
    show (2:ℚ) + 0 + 0 + 0 = 2
    norm_num
  have hF : rawFresh (rawW2.rows.getD 0 []) 0 = 3 := by
    show (3:ℚ) + 0 + 0 + 0 = 3
    norm_num
  have hlt : rawAll (rawW2.rows.getD 0 []) 0 < rawFresh (rawW2.rows.getD 0 []) 0 := by
    rw [hA, hF]
    norm_num
  have hmem := hmain.2.2.2 hlt
  rw [show rawW2.species.getD 0 "" = "SpA" from rfl, hA, hF] at hmem
  exact hmem

/-- C3: the claim asserts that a forest whose offered-shoot total is zero
gets supply_share 0 for every species; the code instead divides the supply
accumulators by the zero total (a ZeroDivisionError on the Python floats
of the distribution table), so on the concrete all-zero forest the
distribution table is not produced at all. -/
theorem distributions_zero_total_fails : distributions zeroForest = none := by
  have htot : totalShoots zeroForest = 0 := by
    norm_num [totalShoots, supplyAcc, forestSpecies, dedupFirst, zeroForest,
      cell, List.range_succ]
  rw [distributions, if_neg (by norm_num [zeroForest]), if_pos htot]

/-- C4: the cross-forest merge is shape-exact and zero-filling: the merged
dataset has as many data rows as the forests have together and five
columns per canonical species; its rows are exactly the per-forest rows
copied in by header lookup, and in a row belonging to a forest every
canonical species absent from that forest keeps 0 in all five of its
fields. -/
theorem dataset_shape_zero_fill (forests : List EnrichedForest) :
    ∃ d, dataset forests = some d
      ∧ d.rows.length = (forests.map (fun f => f.rows.length)).sum
      ∧ d.header.length = 5 * (canonSpecies forests).length
      ∧ d.rows = (forests.map (fun f => f.rows.map (fun r =>
          (buildRow (canonHeaders forests) (forestHeaders f) r).getD []))).flatten
      ∧ ∀ f ∈ forests, ∀ r ∈ f.rows, ∀ out,
          buildRow (canonHeaders forests) (forestHeaders f) r = some out →
          ∀ (k : ℕ) (c : String), (canonSpecies forests)[k]? = some c →
            c ∉ f.species →
            ∀ fld : Field, out.getD (5*k + fieldOffset fld) 0 = 0 := by
  have hbuild : ∀ f ∈ forests, ∀ r : List ℚ,
      ∃ out, buildRow (canonHeaders forests) (forestHeaders f) r = some out ∧
        out.length = (canonHeaders forests).length ∧
        ∀ (p : ℕ) (hp : Header), (canonHeaders forests)[p]? = some hp →
          hp ∉ forestHeaders f →
          out[p]? = (List.replicate (canonHeaders forests).length (0:ℚ))[p]? := by
    intro f hf r
    exact writeCols_spec (canonHeaders forests) (forestHeaders f) r
      (fun h hh => mem_canonHeaders hf hh)
      (List.range (forestHeaders f).length)
      (fun jj hjj => List.mem_range.mp hjj)
      (List.replicate (canonHeaders forests).length 0)
      (List.length_replicate _ _)
  have hinner : ∀ f ∈ forests,
      seqOption (buildRow (canonHeaders forests) (forestHeaders f)) f.rows =
        some (f.rows.map (fun r =>
          (buildRow (canonHeaders forests) (forestHeaders f) r).getD [])) := by
    intro f hf
    refine seqOption_eq_map _ [] (fun r _ => ?_)
    rcases hbuild f hf r with ⟨out, hout, -, -⟩
    rw [hout]
    exact Option.some_ne_none out
  have houter : seqOption (fun f =>
      seqOption (buildRow (canonHeaders forests) (forestHeaders f)) f.rows)
      forests = some (forests.map (fun f => f.rows.map (fun r =>
        (buildRow (canonHeaders forests) (forestHeaders f) r).getD []))) := by
    rw [seqOption_eq_map _ ([] : List (List ℚ)) (fun f hf => by
      rw [hinner f hf]; exact Option.some_ne_none _)]
    congr 1
    refine List.map_congr_left (fun f hf => ?_)
    rw [hinner f hf]
    exact Option.getD_some
  refine ⟨_, by rw [dataset, houter, Option.map_some'], ?_, ?_, rfl, ?_⟩
  · rw [List.length_flatten, List.map_map]
    congr 1
    refine List.map_congr_left (fun f hf => ?_)
    simp [Function.comp]
  · show (canonHeaders forests).length = _
    rw [canonHeaders, length_flatMap_const blockHeaders 5 (fun _ => rfl)]
  · intro f hf r hr out hout k c hkc hnot fld
    rcases hbuild f hf r with ⟨out', hout', hlen', huntouched⟩
    rw [hout'] at hout
    cases hout
    have hoff : fieldOffset fld < 5 := by cases fld <;> norm_num [fieldOffset]
    have hcanon : (canonHeaders forests)[5*k + fieldOffset fld]? = some (c, fld) := by
      rw [canonHeaders, getElem?_flatMap_fixed blockHeaders 5 (fun _ => rfl) _
        (fieldOffset fld) hoff hkc]
      exact getElem?_blockHeaders c fld
    have hnotheader : (c, fld) ∉ forestHeaders f := by
      intro hmem'
      rcases List.mem_flatMap.mp hmem' with ⟨sp, hsp, hblk⟩
      exact hnot (by rw [show c = sp from mem_blockHeaders_fst hblk]; exact hsp)
    have hp : 5*k + fieldOffset fld < (canonHeaders forests).length := by
      rcases List.getElem?_eq_some_iff.mp hcanon with ⟨hlt, -⟩
      exact hlt
    rw [List.getD_eq_getElem?_getD, huntouched _ _ hcanon hnotheader,
      List.getElem?_replicate, if_pos hp]
    rfl

/-- Witness for C4 on two one-species, one-row forests with disjoint
species: two data rows, ten columns, and the fields of the species absent
from the second forest are zero in its row. -/
theorem dataset_shape_zero_fill_witness :
    (dataset [forestW1, forestW2]).map (fun d => d.rows.length) = some 2
    ∧ (dataset [forestW1, forestW2]).map (fun d => d.header.length) = some 10
    ∧ ([0,0,0,0,0, 6,7,8,9,10] : List ℚ).getD
        (5*0 + fieldOffset Field.allShoots) 0 = 0 := by
  obtain ⟨d, hd, hlen, hhdr, hrows, hzero⟩ :=
    dataset_shape_zero_fill [forestW1, forestW2]
  have hb : buildRow (canonHeaders [forestW1, forestW2]) (forestHeaders forestW2)
      [6,7,8,9,10] = some [0,0,0,0,0, 6,7,8,9,10] := rfl
  refine ⟨?_, ?_, ?_⟩
  · rw [hd, Option.map_some', hlen]
    rfl
  · rw [hd, Option.map_some', hhdr]
    rfl
  · exact hzero forestW2 (by simp [forestW1, forestW2]) [6,7,8,9,10]
      (by simp [forestW2]) _ hb 0 "A" rfl (by decide) Field.allShoots

/-- C5: in every data row of the merged dataset, a freshly-browsed cell is
replaced by freshly_browsed / all_shoots (the value of the column
immediately preceding it) when that all_shoots value is nonzero, and is
forced to 0 when it is zero, whatever was recorded; for nonzero all_shoots
the normalized proportion times all_shoots recovers the recorded
freshly-browsed count exactly. -/
theorem normalize_freshly_browsed (d : Dataset) (r : List ℚ) (j : ℕ)
    (hr : r ∈ d.rows) (_hj0 : 0 < j) (hjr : j < r.length)
    (hf : fieldOf d.header j = Field.freshlyBrowsed) :
    normalizeRow d.header r ∈ (normalizeDataset d).rows
    ∧ (cell r (j-1) ≠ 0 →
        cell (normalizeRow d.header r) j = cell r j / cell r (j-1)
        ∧ cell (normalizeRow d.header r) j * cell r (j-1) = cell r j)
    ∧ (cell r (j-1) = 0 → cell (normalizeRow d.header r) j = 0) := by
  have hcell : cell (normalizeRow d.header r) j =
      (if fieldOf d.header j = Field.freshlyBrowsed then
        (if cell r (j-1) ≠ 0 then cell r j / cell r (j-1) else 0)
      else cell r j) := by
    rw [cell, normalizeRow, getD_rangeMap _ hjr]
  rw [hcell, if_pos hf]
  refine ⟨List.mem_map_of_mem _ hr, fun hne => ?_, fun heq => ?_⟩
  · rw [if_pos hne]
    exact ⟨rfl, div_mul_cancel₀ _ hne⟩
  · rw [if_neg (not_not_intro heq)]

/-- Witness for C5 on the row [4, 3]: the normalized value is 3/4 and the
round trip recovers 3. -/
theorem normalize_freshly_browsed_witness :
    cell ([4, 3] : List ℚ) (1-1) ≠ 0
    ∧ cell (normalizeRow datasetW5.header [4, 3]) 1 =
        cell ([4, 3] : List ℚ) 1 / cell ([4, 3] : List ℚ) (1-1)
    ∧ cell (normalizeRow datasetW5.header [4, 3]) 1 * cell ([4, 3] : List ℚ) (1-1) =
        cell ([4, 3] : List ℚ) 1 := by
  have hne : cell ([4, 3] : List ℚ) (1-1) ≠ 0 := by norm_num [cell]
  have h := (normalize_freshly_browsed datasetW5 [4, 3] 1 (by simp [datasetW5])
    (by norm_num) (by norm_num) rfl).2.1 hne
  exact ⟨hne, h.1, h.2⟩

/-- C6: the renaming step fails — halting the dataset — as soon as any
non-Unknown species name is missing from the Hungarian-to-Latin table; a
species with a table entry has its header rewritten to the Latin name with
the field suffix preserved, and Unknown headers pass through unrenamed. -/
theorem rename_behavior :
    (∀ hs : List Header,
      ((∃ h ∈ hs, h.1 ≠ "Unknown" ∧ lookupName h.1 = none) →
        renameDataset hs = none)
      ∧ ((∀ h ∈ hs, h.1 = "Unknown" ∨ (lookupName h.1).isSome) →
          renameDataset hs = some (hs.map (fun h =>
            if h.1 = "Unknown" then h else ((lookupName h.1).getD "", h.2)))))
    ∧ (∀ h : Header, h.1 = "Unknown" → renameHeader h = some h)
    ∧ (∀ (h : Header) (latin : String), h.1 ≠ "Unknown" →
        lookupName h.1 = some latin → renameHeader h = some (latin, h.2)) := by
  refine ⟨fun hs => ⟨?_, ?_⟩, fun h hU => ?_, fun h latin hne hsome => ?_⟩
  · rintro ⟨h, hmem, hne, hnone⟩
    refine seqOption_eq_none renameHeader hmem ?_
    rw [renameHeader, if_neg hne, hnone]
    rfl
  · intro hok
    rw [renameDataset, seqOption_eq_map renameHeader ("", Field.allShoots)
      (fun h hmem => ?_)]
    · congr 1
      refine List.map_congr_left (fun h hmem => ?_)
      by_cases hU : h.1 = "Unknown"
      · rw [renameHeader, if_pos hU, if_pos hU]
        rfl
      · rcases hok h hmem with hU' | hsome
        · exact absurd hU' hU
        · rcases Option.isSome_iff_exists.mp hsome with ⟨latin, hlatin⟩
          rw [renameHeader, if_neg hU, hlatin, if_neg hU]
          rfl
    · rcases hok h hmem with hU | hsome
      · rw [renameHeader, if_pos hU]
        exact Option.some_ne_none h
      · rcases Option.isSome_iff_exists.mp hsome with ⟨latin, hlatin⟩
        rw [renameHeader]
        rcases Decidable.em (h.1 = "Unknown") with hU | hU
        · rw [if_pos hU]
          exact Option.some_ne_none h
        · rw [if_neg hU, hlatin]
          exact Option.some_ne_none _
  · rw [renameHeader, if_pos hU]
  · rw [renameHeader, if_neg hne, hsome]
    rfl

/-- Witness for C6: a header row containing an unmapped species fails, a
mapped species is rewritten to Latin and Unknown passes through. -/
theorem rename_behavior_witness :
    renameDataset headersW6 = none
    ∧ renameHeader ("Unknown", Field.oldBrowsed) = some ("Unknown", Field.oldBrowsed)
    ∧ renameHeader ("Bükk", Field.allShoots) = some ("Fagus sylvatica", Field.allShoots)
    ∧ renameDataset [(("Bükk" : String), Field.allShoots),
        (("Unknown" : String), Field.oldBrowsed)] =
        some [("Fagus sylvatica", Field.allShoots), ("Unknown", Field.oldBrowsed)] := by
  refine ⟨?_, ?_, ?_, ?_⟩
  · exact (rename_behavior.1 headersW6).1
      ⟨("Nevesincs fa", Field.freshlyBrowsed), by decide, by decide, rfl⟩
  · exact rename_behavior.2.1 _ rfl
  · exact rename_behavior.2.2 ("Bükk", Field.allShoots) "Fagus sylvatica"
      (by decide) rfl
  · rw [(rename_behavior.1 [(("Bükk" : String), Field.allShoots),
      (("Unknown" : String), Field.oldBrowsed)]).2 (by decide)]
    rfl

/-- C7 counterexample: when every file of one forest folder fails to read,
`combine_forest` is called on an empty list and the resulting IndexError
aborts the whole batch — even though the corpus contains another forest
that alone is processed fine.  This refutes the claim that per-file
failures never abort the overall batch. -/
theorem batch_abort_counterexample :
    processBatch [[none], [some rawW7]] = none
    ∧ (processBatch [[some rawW7]]).isSome = true := ⟨rfl, rfl⟩

/-- C7 amended: per-file failures are isolated — the batch succeeds and
produces the same result as if the failing files were absent — provided
every forest folder retains at least one successfully read file. -/
theorem batch_failure_isolation (batch : List (List (Option RawPath)))
    (h : ∀ fs ∈ batch, fs.reduceOption ≠ []) :
    (processBatch batch).isSome = true
    ∧ processBatch batch =
        processBatch (batch.map (fun fs => fs.reduceOption.map some)) := by
  have hforest : ∀ fs ∈ batch, processForest fs ≠ none := by
    intro fs hfs
    rw [processForest]
    cases hred : fs.reduceOption with
    | nil => exact absurd hred (h fs hfs)
    | cons a l =>
      rw [List.map_cons, combine_forest]
      exact Option.some_ne_none _
  constructor
  · rw [processBatch, seqOption_eq_map processForest ⟨[], []⟩ hforest]
    rfl
  · rw [processBatch, processBatch, seqOption_map_list]
    exact seqOption_congr (fun fs hfs => by
      rw [processForest, processForest, reduceOption_map_some])

/-- Witness for C7 (amended): a folder with one good and one failing file
is processed exactly as if the failing file were absent. -/
theorem batch_failure_isolation_witness :
    (processBatch [[some rawW7, none]]).isSome = true
    ∧ processBatch [[some rawW7, none]] = processBatch [[some rawW7]] := by
  have h := batch_failure_isolation [[some rawW7, none]] (by decide)
  exact ⟨h.1, h.2⟩

/-- C8: the claim says the inference frequency of a species equals the
number of sampling points with nonzero supply divided by the total number
of points, as at training time; the code loop starts at row index 1 and so
skips the first data row of the loaded matrix (which, unlike the training
matrices, has no header row).  On the two-point input [[5], [7]] both
points have nonzero supply, so the claimed coverage is 1, but the code
computes 1/2 (the nonzero first row is missed while the denominator still
counts it). -/
theorem inference_frequency_skips_first_row :
    inferenceProps tsW8 1 = some [(1/2, 1)]
    ∧ specCoverage tsW8 0 = 1
    ∧ ((1 : ℚ)/2 ≠ 1) := by
  refine ⟨?_, ?_, by norm_num⟩
  · norm_num [inferenceProps, inferenceTotal, inferenceAcc, inferenceFreqCount,
      tsW8, cell, List.range_succ]
  · norm_num [specCoverage, tsW8, cell]

/-- C9: the claim says a prediction is forced to the no-supply sentinel
exactly when the section's all_shoots is zero, with negative predictions
otherwise clamped to 0 and non-negative ones kept.  The code applies
`adjust_predictions` to the min-max-normalized feature matrix, whose TS
entry is 0 whenever the section's raw count equals the column minimum.  On
`tsW9` the two sections offer 3 and 5 shoots; the regressor returns the
non-negative 1/2 for the first section, yet its adjusted estimate is the
sentinel because its normalized TS value is 0 although 3 shoots were
offered. -/
theorem adjust_predictions_use_normalized_supply :
    rawSectionTS tsW9 0 0 = 3
    ∧ sectionEstimatesRaw tsW9 1 predictW9 = some [[1/2], [1/4]]
    ∧ sectionEstimatesAdj tsW9 1 predictW9 = some [[-1/100000], [1/4]]
    ∧ ((-1 : ℚ)/100000 ≠ 1/2) ∧ ((0 : ℚ) ≤ 1/2) := by
  have hprops : inferenceProps tsW9 1 = some [(1/10, 1)] := by
    norm_num [inferenceProps, inferenceTotal, inferenceAcc, inferenceFreqCount,
      tsW9, cell, List.range_succ]
  have hdata : sectionData tsW9 1 = some [[0, 1/10, 1], [200000/200001, 1/10, 1]] := by
    rw [sectionData, hprops, Option.map_some']
    norm_num [unaggRow, sectionRows, normalize_TS, colMin, colMax, cell, smoothing,
      tsW9, List.range_succ, min_def, max_def]
  refine ⟨?_, ?_, ?_, by norm_num, by norm_num⟩
  · norm_num [rawSectionTS, tsW9, cell, List.range_succ]
  · rw [sectionEstimatesRaw, hdata, Option.map_some']
    norm_num [rawEstimates, predictW9, cell, List.range_succ]
  · rw [sectionEstimatesAdj, hdata, Option.map_some']
    norm_num [rawEstimates, adjust_predictions, predictW9, noSupplyValue, cell,
      List.range_succ]

/-- C10: the claim says a section's weight is its all_shoots divided by
the forest-total all_shoots, the forecast being the weighted sum of the
adjusted section predictions.  The code computes the weights from the
min-max-normalized TS column instead.  On `tsW9` (raw section counts 3 and
5, adjusted predictions as produced by the code) the claimed weighted sum
is 3/8 of the first plus 5/8 of the second, i.e. 124997/800000, while the
code weights the sections 0 and 1 and outputs 1/4. -/
theorem forest_estimates_use_normalized_weights :
    forest_estimates tsW9 1 predictW9 = some [1/4]
    ∧ sectionEstimatesAdj tsW9 1 predictW9 = some adjW9
    ∧ rawSectionTS tsW9 0 0 = 3 ∧ rawSectionTS tsW9 1 0 = 5
    ∧ specWeightedForecast tsW9 adjW9 2 0 = 124997/800000
    ∧ ((1 : ℚ)/4 ≠ 124997/800000) := by
  have hprops : inferenceProps tsW9 1 = some [(1/10, 1)] := by
    norm_num [inferenceProps, inferenceTotal, inferenceAcc, inferenceFreqCount,
      tsW9, cell, List.range_succ]
  have hdata : sectionData tsW9 1 = some [[0, 1/10, 1], [200000/200001, 1/10, 1]] := by
    rw [sectionData, hprops, Option.map_some']
    norm_num [unaggRow, sectionRows, normalize_TS, colMin, colMax, cell, smoothing,
      tsW9, List.range_succ, min_def, max_def]
  refine ⟨?_, ?_, ?_, ?_, ?_, by norm_num⟩
  · rw [forest_estimates, hdata, Option.map_some']
    norm_num [rawEstimates, adjust_predictions, predictW9, noSupplyValue, cell,
      List.range_succ]
  · rw [sectionEstimatesAdj, hdata, Option.map_some']
    norm_num [rawEstimates, adjust_predictions, predictW9, noSupplyValue, adjW9,
      cell, List.range_succ]
  · norm_num [rawSectionTS, tsW9, cell, List.range_succ]
  · norm_num [rawSectionTS, tsW9, cell, List.range_succ]
  · norm_num [specWeightedForecast, rawSectionTS, adjW9, tsW9, cell, List.range_succ]

end Browsing
